import Mathlib

/-!
Verification of the arbitrage engine's core arithmetic and path finding.

The development shallowly embeds the repository's constant-product (V2)
swap arithmetic, the flash-loan profit checker, and the PathFinder cycle
enumeration, and proves the specification's claims about them.

Unsigned on-chain integers (uint256, bigint) are modelled as Nat with
floor division; token addresses are modelled as Lean String values (the
TypeScript sources canonicalise addresses to lowercase before use, which
is orthogonal to every property proved here).
-/

/-- Modelled from the spec: V2SwapSimulator.getAmountOut.  The file
bot/core/V2SwapSimulator.ts is imported by StrategyEngine.ts but is not
among the repository's files; the spec (section 4.3) and the repository's
README_PHASE_4 give its formula:
feeFactor = 10000 - feeBps, amountInWithFee = amountIn * feeFactor,
amountOut = (reserveOut * amountInWithFee) / (reserveIn * 10000 + amountInWithFee),
all in unsigned integer arithmetic. -/
def getAmountOut (amountIn reserveIn reserveOut feeBps : Nat) : Nat :=
  let feeFactor := 10000 - feeBps
  let amountInWithFee := amountIn * feeFactor
  let numerator := reserveOut * amountInWithFee
  let denominator := reserveIn * 10000 + amountInWithFee
  numerator / denominator

namespace DexLibrary

/-- DexLibrary.getV2AmountOut from contracts/libraries (unnamed Solidity
source): hardcoded 0.3 percent fee, 997/1000.  The reverts
InsufficientOutputAmount (amountIn = 0) and InsufficientReserves
(a zero reserve) are modelled as `none`. -/
def getV2AmountOut (amountIn reserveIn reserveOut : Nat) : Option Nat :=
  if amountIn = 0 then none
  else if reserveIn = 0 ∨ reserveOut = 0 then none
  else
    let amountInWithFee := amountIn * 997
    let numerator := amountInWithFee * reserveOut
    let denominator := reserveIn * 1000 + amountInWithFee
    some (numerator / denominator)

end DexLibrary

namespace ProfitCalculator

/-- ProfitCalculator.calculateDebt from bot/core/StrategyEngine.ts:
`(loanAmount * 10009n) / 10000n` (FLASH_LOAN_FEE_FACTOR = 10009). -/
def calculateDebt (loanAmount : Nat) : Nat :=
  loanAmount * 10009 / 10000

end ProfitCalculator

namespace ProfitChecker

/-- Aave V3 flash loan fee, 9 basis points (contract constant). -/
def FLASH_LOAN_FEE_BPS : Nat := 9

/-- Basis-point denominator (contract constant). -/
def BPS_DENOMINATOR : Nat := 10000

/-- Safety margin added to the profit threshold, 5 percent (contract constant). -/
def SAFETY_MARGIN_BPS : Nat := 500

/-- ProfitChecker.calculateDebt (Solidity):
`debt = principal * (BPS_DENOMINATOR + FLASH_LOAN_FEE_BPS) / BPS_DENOMINATOR`. -/
def calculateDebt (principal : Nat) : Nat :=
  principal * (BPS_DENOMINATOR + FLASH_LOAN_FEE_BPS) / BPS_DENOMINATOR

/-- Modelled from the spec: the debt formula for an arbitrary non-negative
flash-loan fee in basis points (section 6 supplies the fee as an input;
the Solidity source fixes it to the constant 9). -/
def calculateDebtWithFee (principal feeBps : Nat) : Nat :=
  principal * (BPS_DENOMINATOR + feeBps) / BPS_DENOMINATOR

/-- ProfitChecker.calculateGasCost (Solidity):
`(gasUnits * gasPriceWei * ethPriceInAsset) / 1e18`. -/
def calculateGasCost (gasUnits gasPriceWei ethPriceInAsset : Nat) : Nat :=
  gasUnits * gasPriceWei * ethPriceInAsset / 1000000000000000000

/-- ProfitChecker.ProfitBreakdown (Solidity struct). -/
structure ProfitBreakdown where
  grossProfit : Nat
  flashLoanDebt : Nat
  gasCost : Nat
  netProfit : Nat
deriving DecidableEq, Repr

/-- ProfitChecker.calculateNetProfit (Solidity): net profit is
finalBalance minus debt minus gas when that difference is non-negative,
and zero otherwise. -/
def calculateNetProfit (finalBalance principal gasUnits gasPriceWei ethPriceInAsset : Nat) :
    ProfitBreakdown :=
  let debt := calculateDebt principal
  let gas := calculateGasCost gasUnits gasPriceWei ethPriceInAsset
  { grossProfit := finalBalance
    flashLoanDebt := debt
    gasCost := gas
    netProfit := if debt + gas ≤ finalBalance then finalBalance - debt - gas else 0 }

/-- ProfitChecker.meetsThreshold (Solidity): compares against the
threshold inflated by the 5 percent safety margin. -/
def meetsThreshold (netProfit minThreshold : Nat) : Bool :=
  let adjustedThreshold := minThreshold * (BPS_DENOMINATOR + SAFETY_MARGIN_BPS) / BPS_DENOMINATOR
  adjustedThreshold ≤ netProfit

/-- ProfitChecker.isProfitable (Solidity): full profitability check. -/
def isProfitable (finalBalance principal gasUnits gasPriceWei ethPriceInAsset minThreshold : Nat) :
    Bool × ProfitBreakdown :=
  let breakdown := calculateNetProfit finalBalance principal gasUnits gasPriceWei ethPriceInAsset
  (meetsThreshold breakdown.netProfit minThreshold, breakdown)

end ProfitChecker

/-- Claim C1: for every amountIn > 0, reserveIn > 0, reserveOut > 0 and fee
feeBps, the constant-product swap simulator returns
floor(reserveOut * amountIn * (10000 - feeBps) /
(reserveIn * 10000 + amountIn * (10000 - feeBps))): the output formula is
parametric in the edge's fee in basis points; moreover the repository's
Solidity helper getV2AmountOut (hardcoded 997/1000) computes exactly the
same formula specialised to feeBps = 30. -/
theorem c1_v2_amount_out_formula (amountIn reserveIn reserveOut feeBps : Nat)
    (hin : 0 < amountIn) (hrin : 0 < reserveIn) (hrout : 0 < reserveOut) :
    getAmountOut amountIn reserveIn reserveOut feeBps =
      reserveOut * amountIn * (10000 - feeBps) /
        (reserveIn * 10000 + amountIn * (10000 - feeBps)) ∧
    DexLibrary.getV2AmountOut amountIn reserveIn reserveOut =
      some (getAmountOut amountIn reserveIn reserveOut 30) := by
  constructor
  · simp only [getAmountOut]
    congr 1
    ring
  · simp only [DexLibrary.getV2AmountOut, getAmountOut]
    rw [if_neg hin.ne', if_neg (by omega)]
    congr 1
    rw [← Nat.mul_div_mul_left (amountIn * 997 * reserveOut) (reserveIn * 1000 + amountIn * 997)
      (show 0 < 10 by norm_num)]
    congr 1 <;> ring

/-- Witness for C1 at amountIn = 1000, reserveIn = 1000, reserveOut = 1000,
feeBps = 30. -/
theorem c1_v2_amount_out_formula_witness :
    getAmountOut 1000 1000 1000 30 =
      1000 * 1000 * (10000 - 30) / (1000 * 10000 + 1000 * (10000 - 30)) ∧
    DexLibrary.getV2AmountOut 1000 1000 1000 = some (getAmountOut 1000 1000 1000 30) :=
  c1_v2_amount_out_formula 1000 1000 1000 30 (by decide) (by decide) (by decide)

/-- Claim C2 counterexample: at reserveIn = 1000000, reserveOut =
500000000000000000, feeBps = 30, amountIn = 1000000, the stated integer
formula yields 249624436654982473, not the claimed 498502246382822. -/
theorem c2_scenario_counterexample :
    getAmountOut 1000000 1000000 500000000000000000 30 = 249624436654982473 ∧
    getAmountOut 1000000 1000000 500000000000000000 30 ≠ 498502246382822 := by
  constructor <;> decide

/-- Claim C2 (amended): for reserveIn = 1000000, reserveOut =
500000000000000000, feeBps = 30, amountIn = 1000000, the V2 output
computed by the stated integer formula equals 249624436654982473. -/
theorem c2_scenario_amended :
    getAmountOut 1000000 1000000 500000000000000000 30 = 249624436654982473 := by
  decide

/-- Division comparison by cross multiplication in Nat: a / b is at most
c / d whenever a * d is at most c * b (denominators positive). -/
theorem nat_div_le_div_of_cross_mul {a b c d : Nat} (hb : 0 < b) (hd : 0 < d)
    (h : a * d ≤ c * b) : a / b ≤ c / d := by
  rw [Nat.le_div_iff_mul_le hd]
  have h1 : a / b * d * b ≤ a * d := by
    have := Nat.div_mul_le_self a b
    calc a / b * d * b = a / b * b * d := by ring
      _ ≤ a * d := Nat.mul_le_mul_right d this
  have h2 : a / b * d ≤ a * d / b := (Nat.le_div_iff_mul_le hb).mpr h1
  have h3 : a * d / b ≤ c * b / b := Nat.div_le_div_right h
  rw [Nat.mul_div_cancel c hb] at h3
  exact le_trans h2 h3

/-- Claim C4 counterexample: with reserves reserveIn = 1 > 0,
reserveOut = 1 > 0, fee 30 bps and inputs 0 < 1 < 2, the V2 outputs are
equal (both zero), so amountOut is not strictly increasing in amountIn. -/
theorem c4_strict_monotonicity_counterexample :
    0 < (1 : Nat) ∧ (1 : Nat) < 2 ∧ 0 < (1 : Nat) ∧
    getAmountOut 1 1 1 30 = getAmountOut 2 1 1 30 := by
  decide

/-- Claim C4 (amended): for every fixed reserve pair (reserveIn > 0,
reserveOut > 0) and fixed fee, the V2 amountOut is monotonically
non-decreasing in amountIn (strictness fails under integer floor
division). -/
theorem c4_amount_out_monotone (reserveIn reserveOut feeBps a1 a2 : Nat)
    (hrin : 0 < reserveIn) (hrout : 0 < reserveOut) (h : a1 ≤ a2) :
    getAmountOut a1 reserveIn reserveOut feeBps ≤
      getAmountOut a2 reserveIn reserveOut feeBps := by
  simp only [getAmountOut]
  have hx : a1 * (10000 - feeBps) ≤ a2 * (10000 - feeBps) :=
    Nat.mul_le_mul_right _ h
  apply nat_div_le_div_of_cross_mul
  · exact Nat.lt_of_lt_of_le (by omega) (Nat.le_add_right _ _)
  · exact Nat.lt_of_lt_of_le (by omega) (Nat.le_add_right _ _)
  · nlinarith [hx, Nat.mul_le_mul_right (reserveIn * 10000) hx]

/-- Witness for C4 (amended) at reserveIn = 5, reserveOut = 7, fee 30,
inputs 3 and 4. -/
theorem c4_amount_out_monotone_witness :
    getAmountOut 3 5 7 30 ≤ getAmountOut 4 5 7 30 :=
  c4_amount_out_monotone 5 7 30 3 4 (by decide) (by decide) (by decide)

/-- Claim C5: after a V2 swap with amountIn > 0 against reserves
reserveIn > 0 and reserveOut greater than the computed output, the
post-swap reserve product (reserveIn + amountIn) * (reserveOut - amountOut)
is at least the pre-swap product reserveIn * reserveOut. -/
theorem c5_invariant_preserved (amountIn reserveIn reserveOut feeBps : Nat)
    (ha : 0 < amountIn) (hrin : 0 < reserveIn)
    (hout : getAmountOut amountIn reserveIn reserveOut feeBps < reserveOut) :
    reserveIn * reserveOut ≤
      (reserveIn + amountIn) *
        (reserveOut - getAmountOut amountIn reserveIn reserveOut feeBps) := by
  simp only [getAmountOut] at *
  set f := 10000 - feeBps with hf_def
  set x := amountIn * f with hx_def
  set D := reserveIn * 10000 + x with hD_def
  set out := reserveOut * x / D with hout_def
  have hf : f ≤ 10000 := Nat.sub_le _ _
  have hD : 0 < D := Nat.lt_of_lt_of_le (by omega) (Nat.le_add_right _ _)
  have h1 : out * D ≤ reserveOut * x := Nat.div_mul_le_self _ _
  have hxD : reserveOut * x ≤ reserveOut * D :=
    Nat.mul_le_mul_left _ (Nat.le_add_left _ _)
  -- multiply the goal through by the positive denominator D
  apply Nat.le_of_mul_le_mul_right _ hD
  have step1 : (reserveIn + amountIn) * (reserveOut * D - reserveOut * x) ≤
      (reserveIn + amountIn) * (reserveOut - out) * D := by
    rw [Nat.mul_assoc, Nat.sub_mul]
    exact Nat.mul_le_mul_left _ (Nat.sub_le_sub_left h1 _)
  have step2 : reserveOut * D - reserveOut * x = reserveOut * (reserveIn * 10000) := by
    rw [hD_def, Nat.mul_add, Nat.add_sub_cancel]
  have step3 : reserveIn * reserveOut * D ≤
      (reserveIn + amountIn) * (reserveOut * (reserveIn * 10000)) := by
    have hkey : reserveIn * reserveOut * x ≤ amountIn * (reserveOut * (reserveIn * 10000)) := by
      calc reserveIn * reserveOut * x = reserveIn * reserveOut * (amountIn * f) := by rw [hx_def]
        _ ≤ reserveIn * reserveOut * (amountIn * 10000) := by
            exact Nat.mul_le_mul_left _ (Nat.mul_le_mul_left _ hf)
        _ = amountIn * (reserveOut * (reserveIn * 10000)) := by ring
    calc reserveIn * reserveOut * D
        = reserveIn * (reserveOut * (reserveIn * 10000)) + reserveIn * reserveOut * x := by
          rw [hD_def]; ring
      _ ≤ reserveIn * (reserveOut * (reserveIn * 10000)) +
            amountIn * (reserveOut * (reserveIn * 10000)) := Nat.add_le_add_left hkey _
      _ = (reserveIn + amountIn) * (reserveOut * (reserveIn * 10000)) := by ring
  calc reserveIn * reserveOut * D
      ≤ (reserveIn + amountIn) * (reserveOut * (reserveIn * 10000)) := step3
    _ = (reserveIn + amountIn) * (reserveOut * D - reserveOut * x) := by rw [step2]
    _ ≤ (reserveIn + amountIn) * (reserveOut - out) * D := step1

/-- Witness for C5 at amountIn = 1000, reserveIn = 1000, reserveOut = 1000,
fee 30 bps (output 499 < 1000). -/
theorem c5_invariant_preserved_witness :
    1000 * 1000 ≤ (1000 + 1000) * (1000 - getAmountOut 1000 1000 1000 30) :=
  c5_invariant_preserved 1000 1000 1000 30 (by decide) (by decide) (by decide)

/-- Claim C6: calculateDebt equals floor(L * 10009 / 10000) in both the
TypeScript ProfitCalculator and the Solidity ProfitChecker, and for any
non-negative fee the computed debt is at least the principal. -/
theorem c6_debt_correctness (L : Nat) :
    ProfitCalculator.calculateDebt L = L * 10009 / 10000 ∧
    ProfitChecker.calculateDebt L = L * 10009 / 10000 ∧
    ProfitChecker.calculateDebt L = ProfitChecker.calculateDebtWithFee L 9 ∧
    ∀ feeBps : Nat, L ≤ ProfitChecker.calculateDebtWithFee L feeBps := by
  refine ⟨rfl, rfl, rfl, fun feeBps => ?_⟩
  simp only [ProfitChecker.calculateDebtWithFee, ProfitChecker.BPS_DENOMINATOR]
  calc L = L * 10000 / 10000 := by rw [Nat.mul_div_cancel L (by norm_num)]
    _ ≤ L * (10000 + feeBps) / 10000 :=
        Nat.div_le_div_right (Nat.mul_le_mul_left L (Nat.le_add_right _ _))

/-- Claim C9: meetsThreshold returns true exactly when netProfit is at
least floor(minThreshold * 10500 / 10000); in particular it does not
compare against the configured minimum directly (104 is at least 100 yet
fails the check against threshold 100). -/
theorem c9_meets_threshold (netProfit minThreshold : Nat) :
    (ProfitChecker.meetsThreshold netProfit minThreshold = true ↔
      minThreshold * 10500 / 10000 ≤ netProfit) ∧
    ProfitChecker.meetsThreshold 104 100 = false ∧ 100 ≤ 104 := by
  refine ⟨?_, by decide, by decide⟩
  simp [ProfitChecker.meetsThreshold, ProfitChecker.BPS_DENOMINATOR,
    ProfitChecker.SAFETY_MARGIN_BPS]

/-- Claim C10: calculateNetProfit clamps losses to zero: the reported net
profit equals finalBalance minus debt minus gas cost when the final
balance covers both, and is zero otherwise (never negative, no
underflow). -/
theorem c10_net_profit_clamped
    (finalBalance principal gasUnits gasPriceWei ethPriceInAsset : Nat) :
    ((ProfitChecker.calculateNetProfit finalBalance principal gasUnits gasPriceWei
        ethPriceInAsset).flashLoanDebt +
      (ProfitChecker.calculateNetProfit finalBalance principal gasUnits gasPriceWei
        ethPriceInAsset).gasCost ≤ finalBalance →
      (ProfitChecker.calculateNetProfit finalBalance principal gasUnits gasPriceWei
        ethPriceInAsset).netProfit =
        finalBalance -
          (ProfitChecker.calculateNetProfit finalBalance principal gasUnits gasPriceWei
            ethPriceInAsset).flashLoanDebt -
          (ProfitChecker.calculateNetProfit finalBalance principal gasUnits gasPriceWei
            ethPriceInAsset).gasCost) ∧
    (finalBalance <
      (ProfitChecker.calculateNetProfit finalBalance principal gasUnits gasPriceWei
        ethPriceInAsset).flashLoanDebt +
      (ProfitChecker.calculateNetProfit finalBalance principal gasUnits gasPriceWei
        ethPriceInAsset).gasCost →
      (ProfitChecker.calculateNetProfit finalBalance principal gasUnits gasPriceWei
        ethPriceInAsset).netProfit = 0) := by
  simp only [ProfitChecker.calculateNetProfit]
  constructor
  · intro h
    rw [if_pos h]
  · intro h
    rw [if_neg (by omega)]

/-- Edge/hop kind: constant-product (v2) or concentrated-liquidity (v3). -/
inductive EdgeType
  | v2
  | v3
deriving DecidableEq, Repr

/-- GraphEdge from LiquidityGraph.ts as consumed by PathFinder.  The
TypeScript fields named from and to are rendered src and dst here (both
are Lean keywords); pair and pool metadata are reduced to their
identifiers, which is all the path finder reads of them.  bigint fields
become Int. -/
structure GraphEdge where
  src : String
  dst : String
  type : EdgeType
  pair : Option String
  pool : Option String
  effectiveLiquidity : Int
  gasEstimate : Int
deriving DecidableEq, Repr

/-- PathHop from bot/core/StrategyEngine.ts: one hop of an arbitrage
path.  ticks is the optional per-hop tick map, always set to an empty
map by convertToArbitragePath. -/
structure PathHop where
  type : EdgeType
  tokenIn : String
  tokenOut : String
  pair : Option String
  pool : Option String
  ticks : Option (List (Int × Int))
deriving DecidableEq, Repr

/-- ArbitragePath from bot/core/StrategyEngine.ts. -/
structure ArbitragePath where
  hops : List PathHop
  tokenAddresses : List String
deriving DecidableEq, Repr

/-- PathFinderConfig from PathFinder.ts. -/
structure PathFinderConfig where
  maxDepth : Nat
  minDepth : Nat
  minLiquidity : Int
  maxGasEstimate : Int
  maxPathsPerToken : Nat
  enablePruning : Bool
deriving Repr

/-- DEFAULT_PATHFINDER_CONFIG from PathFinder.ts. -/
def DEFAULT_PATHFINDER_CONFIG : PathFinderConfig :=
  { maxDepth := 6
    minDepth := 2
    minLiquidity := 10000 * 10 ^ 6
    maxGasEstimate := 800000
    maxPathsPerToken := 100
    enablePruning := true }

/-- Modelled from the spec: the LiquidityGraph interface PathFinder
consumes (LiquidityGraph.ts is imported by PathFinder.ts but is not
among the repository's files).  tokens models getTokenAddresses (the
vertex list) and outgoing models getOutgoingEdges; hasVertex is list
membership. -/
structure LiquidityGraph where
  tokens : List String
  outgoing : String → List GraphEdge

namespace PathFinder

/-- PathFinder.convertToArbitragePath: edges become hops (pair kept for
v2 edges, pool and an empty tick map for v3 edges) and the token
sequence is the start token followed by each edge's target. -/
def convertToArbitragePath (edges : List GraphEdge) (startToken : String) : ArbitragePath :=
  { hops := edges.map fun edge =>
      { type := edge.type
        tokenIn := edge.src
        tokenOut := edge.dst
        pair := if edge.type = EdgeType.v2 then edge.pair else none
        pool := if edge.type = EdgeType.v3 then edge.pool else none
        ticks := if edge.type = EdgeType.v3 ∧ edge.pool ≠ none then some [] else none }
    tokenAddresses := startToken :: edges.map GraphEdge.dst }

/-- PathFinder.estimatePathGas: 200000 flash-loan base, plus each edge's
gas estimate, plus 50000 overhead. -/
def estimatePathGas (edges : List GraphEdge) : Int :=
  edges.foldl (fun total edge => total + edge.gasEstimate) 200000 + 50000

/-- Result of one dfs call: the cycles recorded, the visited set as the
call leaves it (the source mutates one shared Set, so it is threaded
through explicitly), and how many dfs entries were counted into
stats.nodesVisited. -/
structure DfsOut where
  cycles : List ArbitragePath
  visited : Finset String
  nodes : Nat

/-- The for-loop over outgoing edges inside PathFinder.dfs: prunes by
liquidity and gas when enablePruning is set, otherwise recurses through
recur (the dfs at one less fuel) at depth + 1 with the edge appended,
threading the visited set left to right. -/
def dfsEdges (cfg : PathFinderConfig)
    (recur : String → Finset String → List GraphEdge → Nat → DfsOut)
    (currentPath : List GraphEdge) (depth : Nat) :
    List GraphEdge → Finset String → DfsOut
  | [], visited => ⟨[], visited, 0⟩
  | edge :: rest, visited =>
    if cfg.enablePruning ∧ edge.effectiveLiquidity < cfg.minLiquidity then
      dfsEdges cfg recur currentPath depth rest visited
    else if cfg.enablePruning ∧ cfg.maxGasEstimate < estimatePathGas currentPath + edge.gasEstimate then
      dfsEdges cfg recur currentPath depth rest visited
    else
      let r1 := recur edge.dst visited (currentPath ++ [edge]) (depth + 1)
      let r2 := dfsEdges cfg recur currentPath depth rest r1.visited
      ⟨r1.cycles ++ r2.cycles, r2.visited, r1.nodes + r2.nodes⟩

/-- PathFinder.dfs, fuel-indexed.  The source recursion is bounded by
the depth guard (depth beyond maxDepth returns at once), so any fuel of
at least cfg.maxDepth + 2 - depth makes the fuel case unreachable
(dfs_fuel_stable below); the out-of-fuel sentinel still counts its entry
the way stats.nodesVisited would. -/
def dfs (g : LiquidityGraph) (cfg : PathFinderConfig) (start : String) :
    Nat → String → Finset String → List GraphEdge → Nat → DfsOut
  | 0, _, visited, _, _ => ⟨[], visited, 1⟩
  | fuel + 1, current, visited, currentPath, depth =>
    if cfg.maxDepth < depth then ⟨[], visited, 1⟩
    else if cfg.minDepth ≤ depth ∧ current = start ∧ currentPath ≠ [] then
      ⟨[convertToArbitragePath currentPath start], visited, 1⟩
    else if 0 < depth ∧ current ≠ start ∧ current ∈ visited then ⟨[], visited, 1⟩
    else
      let shouldMark := current ≠ start ∨ 0 < depth
      let v1 := if shouldMark then insert current visited else visited
      let r := dfsEdges cfg (dfs g cfg start fuel) currentPath depth (g.outgoing current) v1
      ⟨r.cycles, if shouldMark then r.visited.erase current else r.visited, 1 + r.nodes⟩

/-- PathFinder.findCycles: dfs from the start token (empty visited set,
empty path, depth 0) when the vertex exists.  The fuel cfg.maxDepth + 2
is enough for the depth guard to fire first on every branch. -/
def findCycles (g : LiquidityGraph) (cfg : PathFinderConfig) (startToken : String) :
    List ArbitragePath :=
  if startToken ∈ g.tokens then
    (dfs g cfg startToken (cfg.maxDepth + 2) startToken ∅ [] 0).cycles
  else []

/-- Nodes visited by one findCycles run (the contribution of that run to
stats.nodesVisited). -/
def findCyclesNodes (g : LiquidityGraph) (cfg : PathFinderConfig) (startToken : String) : Nat :=
  if startToken ∈ g.tokens then
    (dfs g cfg startToken (cfg.maxDepth + 2) startToken ∅ [] 0).nodes
  else 0

/-- PathFinder.findAllCycles: concatenates findCycles over every vertex;
when one token contributes more than maxPathsPerToken cycles the excess
is spliced off the end.  No deduplication happens here. -/
def findAllCycles (g : LiquidityGraph) (cfg : PathFinderConfig) : List ArbitragePath :=
  g.tokens.foldl
    (fun allCycles token =>
      let cycles := findCycles g cfg token
      let acc := allCycles ++ cycles
      if cfg.maxPathsPerToken < cycles.length then
        acc.take (acc.length - cycles.length + cfg.maxPathsPerToken)
      else acc)
    []

/-- PathFinder.getPathKey: the token sequence joined with an arrow. -/
def getPathKey (path : ArbitragePath) : String :=
  String.intercalate "->" path.tokenAddresses

/-- PathFinder.removeDuplicates: keeps the first path for each key. -/
def removeDuplicates (paths : List ArbitragePath) : List ArbitragePath :=
  (paths.foldl
    (fun acc path =>
      let key := getPathKey path
      if key ∈ acc.1 then acc else (insert key acc.1, acc.2 ++ [path]))
    ((∅ : Finset String), ([] : List ArbitragePath))).2

/-- Upper bound on dfs node visits for out-degree at most m and the given
fuel: one entry plus m subtrees. -/
def nodeBound (m : Nat) : Nat → Nat
  | 0 => 1
  | fuel + 1 => 1 + m * nodeBound m fuel

end PathFinder

namespace PathFinder

/-- The edge loop is congruent in the recursive call: two pointwise-equal
continuations at depth + 1 give equal results. -/
theorem dfsEdges_congr {cfg : PathFinderConfig} {depth : Nat}
    {r1 r2 : String → Finset String → List GraphEdge → Nat → DfsOut}
    (h : ∀ c v p, r1 c v p (depth + 1) = r2 c v p (depth + 1)) :
    ∀ (edges currentPath : List GraphEdge) (visited : Finset String),
      dfsEdges cfg r1 currentPath depth edges visited =
        dfsEdges cfg r2 currentPath depth edges visited := by
  intro edges
  induction edges with
  | nil => intro p v; rfl
  | cons e rest ih =>
    intro p v
    simp only [dfsEdges]
    split_ifs with h1 h2
    · exact ih p v
    · exact ih p v
    · rw [h, ih]

/-- Any two fuels large enough for the depth guard to fire first give the
same dfs result: the source recursion, which has no fuel, is total and
this fuel-indexed embedding computes its value. -/
theorem dfs_fuel_stable (g : LiquidityGraph) (cfg : PathFinderConfig) (start : String) :
    ∀ (fuel1 fuel2 : Nat) (current : String) (visited : Finset String)
      (currentPath : List GraphEdge) (depth : Nat),
      cfg.maxDepth + 2 ≤ depth + fuel1 → cfg.maxDepth + 2 ≤ depth + fuel2 →
      dfs g cfg start fuel1 current visited currentPath depth =
        dfs g cfg start fuel2 current visited currentPath depth := by
  intro fuel1
  induction fuel1 with
  | zero =>
    intro fuel2 c v p d h1 h2
    cases fuel2 with
    | zero => rfl
    | succ f2 =>
      simp only [dfs]
      rw [if_pos (by omega)]
  | succ f1 ih =>
    intro fuel2 c v p d h1 h2
    cases fuel2 with
    | zero =>
      simp only [dfs]
      rw [if_pos (by omega)]
    | succ f2 =>
      simp only [dfs]
      rw [dfsEdges_congr (fun c' v' p' => ih f2 c' v' p' (d + 1) (by omega) (by omega))]

/-- The edge loop does not change membership of a fixed non-start token
in the visited set, provided the continuation does not. -/
theorem dfsEdges_visited_mem (cfg : PathFinderConfig) {depth : Nat} {t : String}
    {recur : String → Finset String → List GraphEdge → Nat → DfsOut}
    (hrec : ∀ c v p, (t ∈ (recur c v p (depth + 1)).visited ↔ t ∈ v)) :
    ∀ (edges currentPath : List GraphEdge) (visited : Finset String),
      (t ∈ (dfsEdges cfg recur currentPath depth edges visited).visited ↔ t ∈ visited) := by
  intro edges
  induction edges with
  | nil => intro p v; exact Iff.rfl
  | cons e rest ih =>
    intro p v
    simp only [dfsEdges]
    split_ifs with h1 h2
    · exact ih p v
    · exact ih p v
    · exact (ih p _).trans (hrec _ _ _)

/-- dfs leaves membership of any non-start token in the visited set
unchanged (the source's backtracking can clobber the start token's mark,
but no other token's). -/
theorem dfs_visited_mem (g : LiquidityGraph) (cfg : PathFinderConfig) (start : String)
    (t : String) (ht : t ≠ start) :
    ∀ (fuel : Nat) (current : String) (visited : Finset String)
      (currentPath : List GraphEdge) (depth : Nat),
      (depth = 0 → current = start) →
      (t ∈ (dfs g cfg start fuel current visited currentPath depth).visited ↔ t ∈ visited) := by
  intro fuel
  induction fuel with
  | zero => intro c v p d hd; exact Iff.rfl
  | succ f ih =>
    intro c v p d hd
    have hrec : ∀ c' v' p',
        (t ∈ (dfs g cfg start f c' v' p' (d + 1)).visited ↔ t ∈ v') :=
      fun c' v' p' => ih c' v' p' (d + 1) (fun h => absurd h (Nat.succ_ne_zero d))
    simp only [dfs]
    split_ifs with h1 h2 h3 h4
    · exact Iff.rfl
    · exact Iff.rfl
    · exact Iff.rfl
    · -- marked branch: current is inserted, the loop runs, current is erased
      have hE := dfsEdges_visited_mem cfg hrec (g.outgoing c) p (insert c v)
      rw [Finset.mem_erase]
      constructor
      · intro ⟨hne, hmem⟩
        rcases Finset.mem_insert.mp (hE.mp hmem) with h | h
        · exact absurd h hne
        · exact h
      · intro hv
        refine ⟨?_, hE.mpr (Finset.mem_insert_of_mem hv)⟩
        intro hTc
        subst hTc
        have hdpos : 0 < d := by
          rcases Nat.eq_zero_or_pos d with h0 | h0
          · exact absurd (hd h0) ht
          · exact h0
        exact h3 ⟨hdpos, ht, hv⟩
    · -- unmarked branch: current = start at depth 0
      exact dfsEdges_visited_mem cfg hrec (g.outgoing c) p v

/-- The edge loop visits at most one bounded subtree per edge. -/
theorem dfsEdges_nodes_le {cfg : PathFinderConfig} {depth B : Nat}
    {recur : String → Finset String → List GraphEdge → Nat → DfsOut}
    (hrec : ∀ c v p, (recur c v p (depth + 1)).nodes ≤ B) :
    ∀ (edges currentPath : List GraphEdge) (visited : Finset String),
      (dfsEdges cfg recur currentPath depth edges visited).nodes ≤ edges.length * B := by
  intro edges
  induction edges with
  | nil => intro p v; simp [dfsEdges]
  | cons e rest ih =>
    intro p v
    simp only [dfsEdges, List.length_cons]
    split_ifs with h1 h2
    · exact le_trans (ih p v) (Nat.mul_le_mul_right B (Nat.le_succ _))
    · exact le_trans (ih p v) (Nat.mul_le_mul_right B (Nat.le_succ _))
    · calc (recur e.dst v (p ++ [e]) (depth + 1)).nodes +
          (dfsEdges cfg recur p depth rest _).nodes
          ≤ B + rest.length * B := Nat.add_le_add (hrec _ _ _) (ih p _)
        _ = (rest.length + 1) * B := by ring

/-- dfs visits at most nodeBound m fuel nodes when every out-degree is at
most m. -/
theorem dfs_nodes_le (g : LiquidityGraph) (cfg : PathFinderConfig) (start : String)
    (m : Nat) (hm : ∀ tok, (g.outgoing tok).length ≤ m) :
    ∀ (fuel : Nat) (current : String) (visited : Finset String)
      (currentPath : List GraphEdge) (depth : Nat),
      (dfs g cfg start fuel current visited currentPath depth).nodes ≤ nodeBound m fuel := by
  intro fuel
  induction fuel with
  | zero => intro c v p d; simp [dfs, nodeBound]
  | succ f ih =>
    intro c v p d
    have hrec : ∀ c' v' p', (dfs g cfg start f c' v' p' (d + 1)).nodes ≤ nodeBound m f :=
      fun c' v' p' => ih c' v' p' (d + 1)
    simp only [dfs, nodeBound]
    split_ifs with h1 h2 h3 h4
    · exact Nat.le_add_right 1 _
    · exact Nat.le_add_right 1 _
    · exact Nat.le_add_right 1 _
    · refine Nat.add_le_add_left ?_ 1
      exact le_trans (dfsEdges_nodes_le hrec (g.outgoing c) p _)
        (Nat.mul_le_mul_right _ (hm c))
    · refine Nat.add_le_add_left ?_ 1
      exact le_trans (dfsEdges_nodes_le hrec (g.outgoing c) p _)
        (Nat.mul_le_mul_right _ (hm c))

end PathFinder

namespace PathFinder

/-- The cycle-validity property of claim C3: the token sequence starts
and ends with the start token, has one more entry than there are hops,
the hop count lies within the configured depth window, and no token
other than the start token occurs twice. -/
def GoodCycle (cfg : PathFinderConfig) (start : String) (q : ArbitragePath) : Prop :=
  q.tokenAddresses.head? = some start ∧
  q.tokenAddresses.getLast? = some start ∧
  q.tokenAddresses.length = q.hops.length + 1 ∧
  cfg.minDepth ≤ q.hops.length ∧ q.hops.length ≤ cfg.maxDepth ∧
  ∀ t, t ≠ start → q.tokenAddresses.count t ≤ 1

/-- A list whose optional last element is known decomposes as its
dropLast part followed by that element. -/
theorem eq_dropLast_append_of_getLast? {α : Type} {l : List α} {a : α}
    (h : l.getLast? = some a) : l = l.dropLast ++ [a] := by
  have hne : l ≠ [] := by
    intro h0
    rw [h0] at h
    simp at h
  rw [List.getLast?_eq_getLast l hne] at h
  injection h with h'
  rw [← h']
  exact (List.dropLast_append_getLast hne).symm

/-- At a record point the converted path satisfies the cycle-validity
property. -/
theorem convert_good {cfg : PathFinderConfig} {start : String}
    (p : List GraphEdge) (d : Nat)
    (hlen : p.length = d) (hpne : p ≠ [])
    (hlast : (p.map GraphEdge.dst).getLast? = some start)
    (hcount : ∀ t, t ≠ start → ((p.map GraphEdge.dst).dropLast).count t ≤ 1)
    (hmin : cfg.minDepth ≤ d) (hmax : d ≤ cfg.maxDepth) :
    GoodCycle cfg start (convertToArbitragePath p start) := by
  have hM := eq_dropLast_append_of_getLast? hlast
  refine ⟨rfl, ?_, ?_, ?_, ?_, ?_⟩
  · show (start :: p.map GraphEdge.dst).getLast? = some start
    calc (start :: p.map GraphEdge.dst).getLast?
        = ((start :: (p.map GraphEdge.dst).dropLast) ++ [start]).getLast? := by
          rw [List.cons_append, ← hM]
      _ = some start := List.getLast?_concat _
  · show (start :: p.map GraphEdge.dst).length = (p.map _).length + 1
    simp
  · show cfg.minDepth ≤ (p.map _).length
    rw [List.length_map, hlen]; exact hmin
  · show (p.map _).length ≤ cfg.maxDepth
    rw [List.length_map, hlen]; exact hmax
  · intro t ht
    show (start :: p.map GraphEdge.dst).count t ≤ 1
    have hc := hcount t ht
    rw [hM]
    simp only [List.count_cons, List.count_append, List.count_nil, beq_iff_eq]
    simp only [if_neg (Ne.symm ht)]
    omega

/-- Cycles recorded by the edge loop satisfy the cycle-validity property,
provided the continuation records only such cycles from any frame whose
interior tokens are covered by the visited set and repeat-free. -/
theorem dfsEdges_cycles_good (g : LiquidityGraph) (cfg : PathFinderConfig) (start : String)
    {depth : Nat} {recur : String → Finset String → List GraphEdge → Nat → DfsOut}
    (hrecV : ∀ t, t ≠ start → ∀ c v p, (t ∈ (recur c v p (depth + 1)).visited ↔ t ∈ v))
    (hrecC : ∀ c v p, p.length = depth + 1 →
        (p ≠ [] → (p.map GraphEdge.dst).getLast? = some c) →
        (∀ t, t ≠ start → t ∈ (p.map GraphEdge.dst).dropLast → t ∈ v) →
        (∀ t, t ≠ start → ((p.map GraphEdge.dst).dropLast).count t ≤ 1) →
        ∀ q ∈ (recur c v p (depth + 1)).cycles, GoodCycle cfg start q) :
    ∀ (edges currentPath : List GraphEdge) (visited : Finset String),
      currentPath.length = depth →
      (∀ t, t ≠ start → t ∈ currentPath.map GraphEdge.dst → t ∈ visited) →
      (∀ t, t ≠ start → (currentPath.map GraphEdge.dst).count t ≤ 1) →
      ∀ q ∈ (dfsEdges cfg recur currentPath depth edges visited).cycles,
        GoodCycle cfg start q := by
  intro edges
  induction edges with
  | nil => intro p v _ _ _ q hq; simp [dfsEdges] at hq
  | cons e rest ih =>
    intro p v hlen hmemv hcount q hq
    simp only [dfsEdges] at hq
    split_ifs at hq with h1 h2
    · exact ih p v hlen hmemv hcount q hq
    · exact ih p v hlen hmemv hcount q hq
    · rcases List.mem_append.mp hq with hq1 | hq2
      · refine hrecC e.dst v (p ++ [e]) (by simp [hlen]) ?_ ?_ ?_ q hq1
        · intro _
          simp only [List.map_append, List.map_cons, List.map_nil, List.getLast?_concat]
        · intro t ht hmem
          simp only [List.map_append, List.map_cons, List.map_nil,
            List.dropLast_concat] at hmem
          exact hmemv t ht hmem
        · intro t ht
          simp only [List.map_append, List.map_cons, List.map_nil, List.dropLast_concat]
          exact hcount t ht
      · refine ih p _ hlen ?_ hcount q hq2
        intro t ht hmem
        exact (hrecV t ht _ _ _).mpr (hmemv t ht hmem)

/-- Every cycle dfs records satisfies the cycle-validity property, under
the dfs frame invariant. -/
theorem dfs_cycles_good (g : LiquidityGraph) (cfg : PathFinderConfig) (start : String) :
    ∀ (fuel : Nat) (current : String) (visited : Finset String)
      (currentPath : List GraphEdge) (depth : Nat),
      currentPath.length = depth →
      (depth = 0 → current = start ∧ currentPath = []) →
      (currentPath ≠ [] → (currentPath.map GraphEdge.dst).getLast? = some current) →
      (∀ t, t ≠ start → t ∈ (currentPath.map GraphEdge.dst).dropLast → t ∈ visited) →
      (∀ t, t ≠ start → ((currentPath.map GraphEdge.dst).dropLast).count t ≤ 1) →
      ∀ q ∈ (dfs g cfg start fuel current visited currentPath depth).cycles,
        GoodCycle cfg start q := by
  intro fuel
  induction fuel with
  | zero => intro c v p d _ _ _ _ _ q hq; simp [dfs] at hq
  | succ f ih =>
    intro c v p d hlen hzero hlast hmemv hcount q hq
    have hrecV : ∀ t, t ≠ start → ∀ c' v' p',
        (t ∈ (dfs g cfg start f c' v' p' (d + 1)).visited ↔ t ∈ v') :=
      fun t ht c' v' p' =>
        dfs_visited_mem g cfg start t ht f c' v' p' (d + 1)
          (fun h => absurd h (Nat.succ_ne_zero d))
    have hrecC : ∀ c' v' p', p'.length = d + 1 →
        (p' ≠ [] → (p'.map GraphEdge.dst).getLast? = some c') →
        (∀ t, t ≠ start → t ∈ (p'.map GraphEdge.dst).dropLast → t ∈ v') →
        (∀ t, t ≠ start → ((p'.map GraphEdge.dst).dropLast).count t ≤ 1) →
        ∀ q' ∈ (dfs g cfg start f c' v' p' (d + 1)).cycles, GoodCycle cfg start q' :=
      fun c' v' p' hl hla hmv hc =>
        ih c' v' p' (d + 1) hl (fun h => absurd h (Nat.succ_ne_zero d)) hla hmv hc
    simp only [dfs] at hq
    split_ifs at hq with h1 h2 h3 h4
    · simp at hq
    · obtain ⟨hmin, hcs, hpne⟩ := h2
      simp only [List.mem_singleton] at hq
      subst hq
      refine convert_good p d hlen hpne ?_ hcount hmin (by omega)
      rw [← hcs]
      exact hlast hpne
    · simp at hq
    · -- marked branch (current inserted before the loop)
      rcases List.eq_nil_or_concat p with hpe | ⟨l, e, hple⟩
      · -- empty path: interior conditions are vacuous
        refine dfsEdges_cycles_good g cfg start hrecV hrecC (g.outgoing c) p _ hlen ?_ ?_ q hq
        · intro t ht hmem
          rw [hpe] at hmem
          simp at hmem
        · intro t ht
          rw [hpe]
          simp
      · have hpne : p ≠ [] := by rw [hple]; simp
        have hM := eq_dropLast_append_of_getLast? (hlast hpne)
        have hdpos : 0 < d := by
          rw [← hlen, hple]
          simp
        refine dfsEdges_cycles_good g cfg start hrecV hrecC (g.outgoing c) p _ hlen ?_ ?_ q hq
        · intro t ht hmem
          rw [hM, List.mem_append] at hmem
          rcases hmem with hmem | hmem
          · exact Finset.mem_insert_of_mem (hmemv t ht hmem)
          · simp only [List.mem_singleton] at hmem
            rw [hmem]
            exact Finset.mem_insert_self c v
        · intro t ht
          rw [hM, List.count_append]
          by_cases htc : t = c
          · subst htc
            have hcnt0 : ((p.map GraphEdge.dst).dropLast).count t = 0 := by
              by_contra hpos
              have hmem : t ∈ (p.map GraphEdge.dst).dropLast :=
                List.count_pos_iff.mp (Nat.pos_of_ne_zero hpos)
              exact h3 ⟨hdpos, ht, hmemv t ht hmem⟩
            rw [hcnt0]
            simp
          · have h0 : List.count t [c] = 0 := by
              simp [List.count_cons, htc]
            rw [h0]
            simpa using hcount t ht
    · -- unmarked branch: current = start at depth 0, so the path is empty
      push_neg at h4
      obtain ⟨hcs, hd0⟩ := h4
      have hd0' : d = 0 := by omega
      obtain ⟨_, hpe⟩ := hzero hd0'
      refine dfsEdges_cycles_good g cfg start hrecV hrecC (g.outgoing c) p _ hlen ?_ ?_ q hq
      · intro t ht hmem
        rw [hpe] at hmem
        simp at hmem
      · intro t ht
        rw [hpe]
        simp

end PathFinder

namespace PathFinder

/-- removeDuplicates keeps at most one path per token-sequence key: the
seen-set fold admits a key only once. -/
theorem removeDuplicates_keys_nodup (paths : List ArbitragePath) :
    ((removeDuplicates paths).map getPathKey).Nodup := by
  suffices h : ∀ (acc : Finset String × List ArbitragePath),
      (acc.2.map getPathKey).Nodup →
      (∀ k, k ∈ acc.2.map getPathKey → k ∈ acc.1) →
      (((paths.foldl (fun acc path =>
          let key := getPathKey path
          if key ∈ acc.1 then acc else (insert key acc.1, acc.2 ++ [path])) acc).2.map
            getPathKey).Nodup ∧
        ∀ k, k ∈ ((paths.foldl (fun acc path =>
          let key := getPathKey path
          if key ∈ acc.1 then acc else (insert key acc.1, acc.2 ++ [path])) acc).2.map
            getPathKey) →
          k ∈ (paths.foldl (fun acc path =>
          let key := getPathKey path
          if key ∈ acc.1 then acc else (insert key acc.1, acc.2 ++ [path])) acc).1) by
    exact (h (∅, []) (by simp) (by simp)).1
  induction paths with
  | nil => intro acc h1 h2; exact ⟨h1, h2⟩
  | cons p rest ih =>
    intro acc h1 h2
    simp only [List.foldl_cons]
    by_cases hk : getPathKey p ∈ acc.1
    · rw [if_pos hk]
      exact ih acc h1 h2
    · rw [if_neg hk]
      refine ih (insert (getPathKey p) acc.1, acc.2 ++ [p]) ?_ ?_
      · rw [List.map_append]
        rw [List.nodup_append]
        refine ⟨h1, by simp, ?_⟩
        intro k hkmem
        simp only [List.map_cons, List.map_nil, List.mem_singleton]
        intro hkp
        rw [hkp] at hkmem
        exact hk (h2 _ hkmem)
      · intro k hkmem
        rw [List.map_append, List.mem_append] at hkmem
        rcases hkmem with hkm | hkm
        · exact Finset.mem_insert_of_mem (h2 _ hkm)
        · simp only [List.map_cons, List.map_nil, List.mem_singleton] at hkm
          rw [hkm]
          exact Finset.mem_insert_self _ _

end PathFinder

/-- Test fixture: two parallel pools p1 and p2 between tokens a and b;
each pool contributes one directed edge per direction. -/
def edgeAB1 : GraphEdge :=
  { src := "a", dst := "b", type := EdgeType.v2, pair := some "p1", pool := none
    effectiveLiquidity := 1000000, gasEstimate := 110000 }

/-- Second pool's edge from a to b (parallel to edgeAB1). -/
def edgeAB2 : GraphEdge :=
  { src := "a", dst := "b", type := EdgeType.v2, pair := some "p2", pool := none
    effectiveLiquidity := 1000000, gasEstimate := 110000 }

/-- First pool's edge back from b to a. -/
def edgeBA1 : GraphEdge :=
  { src := "b", dst := "a", type := EdgeType.v2, pair := some "p1", pool := none
    effectiveLiquidity := 1000000, gasEstimate := 110000 }

/-- Second pool's edge back from b to a. -/
def edgeBA2 : GraphEdge :=
  { src := "b", dst := "a", type := EdgeType.v2, pair := some "p2", pool := none
    effectiveLiquidity := 1000000, gasEstimate := 110000 }

/-- Test fixture graph with the two parallel pools. -/
def gPar : LiquidityGraph :=
  { tokens := ["a", "b"]
    outgoing := fun t =>
      if t = "a" then [edgeAB1, edgeAB2] else if t = "b" then [edgeBA1, edgeBA2] else [] }

/-- Test fixture configuration: depth window [2, 2], pruning disabled. -/
def cfgPar : PathFinderConfig :=
  { maxDepth := 2, minDepth := 2, minLiquidity := 0, maxGasEstimate := 1000000
    maxPathsPerToken := 100, enablePruning := false }

/-- The cycle a to b (pool p1) and back (pool p1), as recorded by dfs. -/
def pathABA : ArbitragePath := PathFinder.convertToArbitragePath [edgeAB1, edgeBA1] "a"

/-- Claim C3: every ArbitragePath returned by findCycles(startToken) is a
simple cycle: its token sequence starts and ends with the start token,
has one more entry than there are hops, its hop count lies in
[minDepth, maxDepth], and no token other than the start token occurs
twice in the sequence. -/
theorem c3_cycle_validity (g : LiquidityGraph) (cfg : PathFinderConfig)
    (startToken : String) (path : ArbitragePath)
    (hmem : path ∈ PathFinder.findCycles g cfg startToken) :
    path.tokenAddresses.head? = some startToken ∧
    path.tokenAddresses.getLast? = some startToken ∧
    path.tokenAddresses.length = path.hops.length + 1 ∧
    cfg.minDepth ≤ path.hops.length ∧ path.hops.length ≤ cfg.maxDepth ∧
    ∀ t, t ≠ startToken → path.tokenAddresses.count t ≤ 1 := by
  unfold PathFinder.findCycles at hmem
  split_ifs at hmem with hv
  · exact PathFinder.dfs_cycles_good g cfg startToken (cfg.maxDepth + 2) startToken ∅ [] 0
      rfl (fun _ => ⟨rfl, rfl⟩) (fun h => absurd rfl h) (fun t ht hm => by simp at hm)
      (fun t ht => by simp) path hmem
  · simp at hmem

/-- Witness for C3: the recorded 2-hop cycle a, b, a in the parallel-pool
fixture graph. -/
theorem c3_cycle_validity_witness :
    pathABA.tokenAddresses.head? = some "a" ∧
    pathABA.tokenAddresses.getLast? = some "a" ∧
    pathABA.tokenAddresses.length = pathABA.hops.length + 1 ∧
    cfgPar.minDepth ≤ pathABA.hops.length ∧ pathABA.hops.length ≤ cfgPar.maxDepth ∧
    ∀ t, t ≠ "a" → pathABA.tokenAddresses.count t ≤ 1 :=
  c3_cycle_validity gPar cfgPar "a" pathABA (by decide)

/-- Claim C7: the path-finder recursion is depth-bounded: one findCycles
run visits at most nodeBound m (maxDepth + 2) nodes when every
out-degree is at most m, and the fuel-indexed dfs is independent of the
fuel once it covers the depth guard, so the source recursion always
returns with this value. -/
theorem c7_path_finder_bounded (g : LiquidityGraph) (cfg : PathFinderConfig)
    (startToken : String) (m : Nat)
    (hm : ∀ tok, (g.outgoing tok).length ≤ m) :
    PathFinder.findCyclesNodes g cfg startToken ≤ PathFinder.nodeBound m (cfg.maxDepth + 2) ∧
    ∀ fuel, cfg.maxDepth + 2 ≤ fuel →
      PathFinder.dfs g cfg startToken fuel startToken ∅ [] 0 =
        PathFinder.dfs g cfg startToken (cfg.maxDepth + 2) startToken ∅ [] 0 := by
  constructor
  · unfold PathFinder.findCyclesNodes
    split_ifs with hv
    · exact PathFinder.dfs_nodes_le g cfg startToken m hm (cfg.maxDepth + 2) startToken ∅ [] 0
    · exact Nat.zero_le _
  · intro fuel hfuel
    exact PathFinder.dfs_fuel_stable g cfg startToken fuel (cfg.maxDepth + 2) startToken ∅ [] 0
      (by omega) (by omega)

/-- Witness for C7 on the parallel-pool fixture graph (out-degree 2). -/
theorem c7_path_finder_bounded_witness :
    PathFinder.findCyclesNodes gPar cfgPar "a" ≤ PathFinder.nodeBound 2 (cfgPar.maxDepth + 2) ∧
    ∀ fuel, cfgPar.maxDepth + 2 ≤ fuel →
      PathFinder.dfs gPar cfgPar "a" fuel "a" ∅ [] 0 =
        PathFinder.dfs gPar cfgPar "a" (cfgPar.maxDepth + 2) "a" ∅ [] 0 :=
  c7_path_finder_bounded gPar cfgPar "a" 2 (by
    intro tok
    show (if tok = "a" then [edgeAB1, edgeAB2]
      else if tok = "b" then [edgeBA1, edgeBA2] else []).length ≤ 2
    split_ifs <;> simp)

/-- Claim C8 counterexample: findAllCycles itself performs no
deduplication; on the parallel-pool fixture its output contains several
paths with the identical token sequence a, b, a (and b, a, b), so the
claimed no-two-paths-share-a-key property fails for findAllCycles. -/
theorem c8_find_all_cycles_duplicates :
    ¬ (((PathFinder.findAllCycles gPar cfgPar).map PathFinder.getPathKey).Nodup) := by
  decide

/-- Claim C8 (amended): duplicate cycles are removed by keying each path
on the string join of its token addresses in removeDuplicates, whose
output never contains two paths with the same token sequence; but
findAllCycles does not itself invoke removeDuplicates, so deduplication
holds for removeDuplicates(findAllCycles()) rather than for the raw
findAllCycles output. -/
theorem c8_duplicates_removed_by_key (g : LiquidityGraph) (cfg : PathFinderConfig) :
    ((PathFinder.removeDuplicates (PathFinder.findAllCycles g cfg)).map
      PathFinder.getPathKey).Nodup :=
  PathFinder.removeDuplicates_keys_nodup _
